import Mathlib

/-!
Shallow embedding of `src/trie/__init__.py` (package `swizzard/trie`).

The source represents a trie as nested Python dictionaries: a "branch level"
maps a key element either to a nested level or — under the distinguished
`terminal_marker` — to a stored payload value.  We model

* a Python dict as an insertion-ordered association list (`Level`),
* a dict entry as the sum `Entry` of a payload value and a nested level,
* payload values by the closed dynamic domain `PyVal` (the payloads the
  repository and its tests exercise: `None`, booleans, ints, strings),
* a raised Python exception by the `PyErr` error type carried in `Except`;
  a `KeyError` records its argument (a bare element or a whole key
  sequence) because the source distinguishes exactly that.

The immutable `Trie` walks plain dicts: a missing element raises `KeyError`.
The `MutableTrie` keeps its levels as `defaultdict`s, so any subscript of a
missing element silently inserts a fresh empty level ("auto-vivification")
and the walk never raises `KeyError`.  In this embedding the two container
behaviours are modelled by two walk functions over the same `Level` data:
`iter_key` (plain dict) and `dd_modifyR` (defaultdict, returning the updated
structure alongside the result, since vivification mutates it).
-/

set_option autoImplicit false
set_option linter.unusedSectionVars false


/-- The dynamic domain of payload values appearing in the repository:
Python `None`, booleans, integers and strings. -/
inductive PyVal : Type where
  | pyNone : PyVal
  | pyBool : Bool → PyVal
  | pyInt : Int → PyVal
  | pyStr : String → PyVal
  deriving DecidableEq

/-- Python truthiness (`bool(v)`) on payload values. -/
def PyVal.truthy : PyVal → Bool
  | .pyNone => false
  | .pyBool b => b
  | .pyInt n => decide (n ≠ 0)
  | .pyStr s => !s.isEmpty

/-- A Python object appearing as the argument of a `KeyError`, or flowing
through `_prefixes`: either a bare key element (a scalar such as an int,
not iterable) or a key sequence (a tuple of elements). -/
inductive PyObj (α : Type) : Type where
  | elem : α → PyObj α
  | seq : List α → PyObj α
  deriving DecidableEq

/-- The Python exceptions the source can raise.  `keyError` keeps the
argument the source passes to `KeyError(...)`. -/
inductive PyErr (α : Type) : Type where
  | keyError : PyObj α → PyErr α
  | typeError : PyErr α
  | valueError : PyErr α
  | attributeError : PyErr α
  | recursionError : PyErr α
  deriving DecidableEq

/-- One entry of a branch level: either a stored payload value (only ever
reached under the terminal marker in well-formed use) or a nested level.
A level is an insertion-ordered association list, mirroring a Python dict. -/
inductive Entry (α : Type) : Type where
  | val : PyVal → Entry α
  | br : List (α × Entry α) → Entry α

/-- A branch level: the model of one (default)dict of the nested structure. -/
abbrev Level (α : Type) : Type := List (α × Entry α)

variable {α : Type} [DecidableEq α]

/-- Python `d[k]` read on a plain dict, as an `Option`: first (unique)
matching key. -/
def dictGet : Level α → α → Option (Entry α)
  | [], _ => none
  | (k, e) :: rest, a => if k = a then some e else dictGet rest a

/-- Python `d[k] = e`: replace in place when the key is present (keeping its
position, as dicts preserve insertion order), otherwise append at the end. -/
def dictSet : Level α → α → Entry α → Level α
  | [], a, e => [(a, e)]
  | (k, e₀) :: rest, a, e => if k = a then (k, e) :: rest else (k, e₀) :: dictSet rest a e

/-- Python `del d[k]` (the key is checked for presence at the call sites). -/
def dictRemove : Level α → α → Level α
  | [], _ => []
  | (k, e) :: rest, a => if k = a then rest else (k, e) :: dictRemove rest a

/-- `Trie.iter_key(children, key)` on finalized (plain dict) levels:
`[fst, *rest] = key` raises `ValueError` on an empty key; each subscript of
a missing element raises `KeyError(fst)` (the bare element); subscripting a
payload value reached mid-walk is modelled as `TypeError` (the payloads of
`PyVal` other than strings are not subscriptable; no claim walks through a
stored payload).  Returns the entry reached after consuming all elements. -/
def iter_key (children : Level α) : List α → Except (PyErr α) (Entry α)
  | [] => .error .valueError
  | [a] =>
    match dictGet children a with
    | some e => .ok e
    | none => .error (.keyError (.elem a))
  | a :: b :: rest =>
    match dictGet children a with
    | some (.br sub) => iter_key sub (b :: rest)
    | some (.val _) => .error .typeError
    | none => .error (.keyError (.elem a))

/-- The walk of `Trie.iter_key` when `children` is a `defaultdict` tree (the
mutable variant and the construction phase): subscripting a missing element
inserts a fresh empty level and continues.  The source then mutates the
*aliased* object returned by the walk (`level[marker] = v`, `del
level[marker]`, or just reads it); `f` is that final action on the reached
entry, returning the replacement entry and a result.  The updated root
structure is returned even when the action fails, because the vivification
performed by the walk has already happened. -/
def dd_modifyR {ρ : Type} (f : Entry α → Entry α × Except (PyErr α) ρ) :
    Level α → List α → Level α × Except (PyErr α) ρ
  | c, [] => (c, .error .valueError)
  | c, [a] =>
    match dictGet c a with
    | some e => ((dictSet c a (f e).1), (f e).2)
    | none => ((dictSet c a (f (.br [])).1), (f (.br [])).2)
  | c, a :: b :: rest =>
    match dictGet c a with
    | some (.br sub) =>
      let s := dd_modifyR f sub (b :: rest)
      ((dictSet c a (.br s.1)), s.2)
    | some (.val _) => (c, .error .typeError)
    | none =>
      let s := dd_modifyR f ([] : Level α) (b :: rest)
      ((dictSet c a (.br s.1)), s.2)

/-- A `Trie` handle: a terminal marker paired with the root branch level.
The same data underlies `MutableTrie`; the two classes differ only in which
walk their methods perform (plain dict vs `defaultdict`). -/
structure Trie (α : Type) : Type where
  terminal_marker : α
  children : Level α

/-- `Trie.finalize`: the source recursively copies every `defaultdict` into
a plain `dict` with identical entries.  Content-wise this is the identity;
the dict/defaultdict distinction is behavioural and is captured here by
which walk (`iter_key` vs `dd_modifyR`) later operations use. -/
def Trie.finalize (children : Level α) : Level α := children

/-- The final action of `__setitem__`/construction: `level[terminal_marker]
= value` on the object the walk reached.  Assigning into a payload value
raises `TypeError` (payloads are not item-assignable). -/
def fSet (m : α) (v : PyVal) : Entry α → Entry α × Except (PyErr α) Unit
  | .br lvl => (.br (dictSet lvl m (.val v)), .ok ())
  | .val w => (.val w, .error .typeError)

/-- The final action of `__delitem__`: `del level[terminal_marker]`, raising
`KeyError(terminal_marker)` when the marker entry is absent. -/
def fDel (m : α) : Entry α → Entry α × Except (PyErr α) Unit
  | .br lvl =>
    match dictGet lvl m with
    | some _ => (.br (dictRemove lvl m), .ok ())
    | none => (.br lvl, .error (.keyError (.elem m)))
  | .val w => (.val w, .error .typeError)

/-- The construction loop of `from_items`: for each `(key, value)` pair,
walk the `defaultdict` structure with `iter_key` (creating levels) and store
the value under the terminal marker at the level reached.  An exception
aborts the loop; the structure built so far is kept for fidelity. -/
def build_children (m : α) : Level α → List (List α × PyVal) → Level α × Except (PyErr α) Unit
  | c, [] => (c, .ok ())
  | c, (k, v) :: rest =>
    match dd_modifyR (fSet m v) c k with
    | (c₁, .ok _) => build_children m c₁ rest
    | (c₁, .error e) => (c₁, .error e)

/-- `Trie.from_items(terminal_marker, items)`: fold all pairs into an
auto-vivifying structure, then finalize. -/
def Trie.from_items (m : α) (items : List (List α × PyVal)) : Except (PyErr α) (Trie α) :=
  match build_children m [] items with
  | (c, .ok _) => .ok ⟨m, Trie.finalize c⟩
  | (_, .error e) => .error e

/-- `Trie.from_dict` just delegates to `from_items` on the dict's pairs. -/
def Trie.from_dict (m : α) (items : List (List α × PyVal)) : Except (PyErr α) (Trie α) :=
  Trie.from_items m items

/-- `Trie.get(key, default)`: `self._subtrie(key).get(terminal_marker,
default)`.  The walk's exceptions (notably `KeyError` on a missing element)
propagate uncaught; when the walk lands on a payload value, calling `.get`
on it raises `AttributeError`. -/
def Trie.get (t : Trie α) (key : List α) (default : PyVal) : Except (PyErr α) (Entry α) :=
  match iter_key t.children key with
  | .ok (.br lvl) => .ok ((dictGet lvl t.terminal_marker).getD (.val default))
  | .ok (.val _) => .error .attributeError
  | .error e => .error e

/-- `Trie.__getitem__`: `self._subtrie(key)[terminal_marker]` inside
`try/except KeyError`, re-raised as `KeyError(key)` with the full original
key.  Non-`KeyError` exceptions propagate unchanged. -/
def Trie.getitem (t : Trie α) (key : List α) : Except (PyErr α) (Entry α) :=
  match iter_key t.children key with
  | .ok (.br lvl) =>
    match dictGet lvl t.terminal_marker with
    | some e => .ok e
    | none => .error (.keyError (.seq key))
  | .ok (.val _) => .error .typeError
  | .error (.keyError _) => .error (.keyError (.seq key))
  | .error e => .error e

/-- `Trie.get_subtrie(key)`: `Trie(self.terminal_marker, self._subtrie(key))`;
the walk's exceptions propagate unchanged.  (When the walk lands on a payload
value the source wraps the raw payload in a `Trie` whose `children` is not a
dict — a degenerate handle outside this model's `Level` type, reachable only
by walking a key through a stored payload; modelled as the `TypeError` its
first use would raise.  No claim exercises that corner.) -/
def Trie.get_subtrie (t : Trie α) (key : List α) : Except (PyErr α) (Trie α) :=
  match iter_key t.children key with
  | .ok (.br lvl) => .ok ⟨t.terminal_marker, lvl⟩
  | .ok (.val _) => .error .typeError
  | .error e => .error e

/-- Python truthiness of what `get` returns: a payload's truthiness, or the
truthiness of a dict (nonempty) when the entry is a nested level. -/
def Entry.truthy : Entry α → Bool
  | .val v => v.truthy
  | .br lvl => !lvl.isEmpty

/-- `Trie.__contains__`: `bool(self.get(item, False))`. -/
def Trie.contains (t : Trie α) (key : List α) : Except (PyErr α) Bool :=
  match Trie.get t key (.pyBool false) with
  | .ok e => .ok e.truthy
  | .error e => .error e

/-- Helper for stating claims: the payload stored at exactly `key` (the walk
resolves to a level whose terminal-marker entry is a payload), if any. -/
def stored (m : α) (c : Level α) (key : List α) : Option PyVal :=
  match iter_key c key with
  | .ok (.br lvl) =>
    match dictGet lvl m with
    | some (.val v) => some v
    | _ => none
  | _ => none

/-- `MutableTrie.__getitem__`: `value = self._subtrie(key).get(terminal_marker,
None)`, raising `KeyError(key)` when `value is None` — so a stored `None` is
indistinguishable from absence.  The walk is the vivifying `defaultdict` walk
and the (possibly mutated) structure is returned alongside the result. -/
def MutableTrie.getitem (t : Trie α) (key : List α) :
    Level α × Except (PyErr α) (Entry α) :=
  dd_modifyR (fun e =>
    match e with
    | .br lvl =>
      match dictGet lvl t.terminal_marker with
      | some (.val .pyNone) => (.br lvl, .error (.keyError (.seq key)))
      | some en => (.br lvl, .ok en)
      | none => (.br lvl, .error (.keyError (.seq key)))
    | .val w => (.val w, .error .attributeError)) t.children key

/-- `MutableTrie.get` is `Trie.get`, but executed over `defaultdict` levels:
the walk vivifies missing branches (and so never raises `KeyError`); the
final `.get(terminal_marker, default)` does not vivify. -/
def MutableTrie.get (t : Trie α) (key : List α) (default : PyVal) :
    Level α × Except (PyErr α) (Entry α) :=
  dd_modifyR (fun e =>
    match e with
    | .br lvl => (.br lvl, .ok ((dictGet lvl t.terminal_marker).getD (.val default)))
    | .val w => (.val w, .error .attributeError)) t.children key

/-- `MutableTrie.__contains__` (inherited): `bool(self.get(item, False))`
over the vivifying walk. -/
def MutableTrie.contains (t : Trie α) (key : List α) :
    Level α × Except (PyErr α) Bool :=
  match MutableTrie.get t key (.pyBool false) with
  | (c, .ok e) => (c, .ok e.truthy)
  | (c, .error e) => (c, .error e)

/-- `MutableTrie.__setitem__`: vivifying walk, then `level[terminal_marker]
= value` at the level reached. -/
def MutableTrie.setitem (t : Trie α) (key : List α) (v : PyVal) :
    Level α × Except (PyErr α) Unit :=
  dd_modifyR (fSet t.terminal_marker v) t.children key

/-- `MutableTrie.__delitem__`: vivifying walk, then `del
level[terminal_marker]` at the level reached. -/
def MutableTrie.delitem (t : Trie α) (key : List α) :
    Level α × Except (PyErr α) Unit :=
  dd_modifyR (fDel t.terminal_marker) t.children key

/-- `MutableTrie.get_subtrie` (inherited): the vivifying walk, then wrapping
the reached level in a `Trie` handle sharing the parent's terminal marker
(same payload-value corner as `Trie.get_subtrie`). -/
def MutableTrie.get_subtrie (t : Trie α) (key : List α) :
    Level α × Except (PyErr α) (Trie α) :=
  dd_modifyR (fun e =>
    match e with
    | .br lvl => (.br lvl, .ok (⟨t.terminal_marker, lvl⟩ : Trie α))
    | .val w => (.val w, .error .typeError)) t.children key

/-- `Trie.__getitem__` as executed on a `defaultdict`-backed handle (a
subtrie view of a `MutableTrie` has class `Trie` but aliases `defaultdict`
levels): the walk vivifies, and the final `[terminal_marker]` subscript on a
missing marker also vivifies — returning a fresh empty level instead of
raising, so the `except KeyError` never fires. -/
def Trie.getitem_dd (t : Trie α) (key : List α) :
    Level α × Except (PyErr α) (Entry α) :=
  dd_modifyR (fun e =>
    match e with
    | .br lvl =>
      match dictGet lvl t.terminal_marker with
      | some en => (.br lvl, .ok en)
      | none => (.br (dictSet lvl t.terminal_marker (.br [])), .ok (.br ([] : Level α)))
    | .val w => (.val w, .error .typeError)) t.children key

/-- `MutableTrie.from_items` (inherited, with `finalize` overridden to leave
the `defaultdict`s in place): identical folding, no conversion. -/
def MutableTrie.from_items (m : α) (items : List (List α × PyVal)) :
    Except (PyErr α) (Trie α) :=
  match build_children m [] items with
  | (c, .ok _) => .ok ⟨m, c⟩
  | (_, .error e) => .error e

/-- `TrieSet.from_keys(terminal_marker, keys)`: the source body is
`return cls.from_items((k, True) for k in keys)` — it passes the generator
as the `terminal_marker` parameter of `from_items` and supplies no `items`
argument, so Python raises `TypeError` (missing required positional
argument) on every call, before any key is consumed. -/
def TrieSet.from_keys (_m : α) (_keys : List (List α)) : Except (PyErr α) (Trie α) :=
  .error .typeError

/-- A generator run, modelled as the list of items it yields followed by the
exception (if any) that terminates the iteration. -/
structure GenRes (α : Type) : Type where
  yielded : List (PyObj α)
  err : Option (PyErr α)

/-- Sequencing of generator runs (`yield from g₁` then `g₂`): once the first
run raises, the second never starts. -/
def GenRes.append {α : Type} : GenRes α → GenRes α → GenRes α
  | ⟨ys, some e⟩, _ => ⟨ys, some e⟩
  | ⟨ys, none⟩, ⟨zs, e⟩ => ⟨ys ++ zs, e⟩

/-- `iter_key` as invoked from `_prefixes`, where the "key" is a dynamic
object: unpacking `[fst, *rest] = key` of a bare scalar element raises
`TypeError` (an int is not iterable; the claims instantiate elements at
non-iterable scalars), of an empty sequence `ValueError`, and a sequence
walks as usual. -/
def iter_key_obj (children : Level α) : PyObj α → Except (PyErr α) (Entry α)
  | .elem _ => .error .typeError
  | .seq l => iter_key children l

/-- `k2 = k + key` inside `_prefixes`: `k` is the accumulated dynamic prefix
object and `key` the child element.  Python `+` on two scalar elements is
element addition (int addition for the claims' integer elements); adding a
bare element to a tuple raises `TypeError`. -/
def pyConcat [Add α] : PyObj α → α → Except (PyErr α) (PyObj α)
  | .elem a, b => .ok (.elem (a + b))
  | .seq _, _ => .error .typeError

mutual

/-- `Trie._prefixes(self, k)`: yield `k`, then iterate the items of
`self._subtrie(k)` (a walk from the root with the dynamic object `k`),
skipping the terminal-marker entry, recursing on `k + key` for every other
child.  Exhausted fuel is modelled as Python's `RecursionError`; calling
`.items()` on a payload value raises `AttributeError`. -/
def prefixesAux [Add α] (m : α) (root : Level α) : Nat → PyObj α → GenRes α
  | 0, _ => ⟨[], some .recursionError⟩
  | Nat.succ fuel, k =>
    match iter_key_obj root k with
    | .error e => ⟨[k], some e⟩
    | .ok (.val _) => ⟨[k], some .attributeError⟩
    | .ok (.br lvl) => GenRes.append ⟨[k], none⟩ (prefixesFold m root fuel k lvl)
termination_by fuel _ => (fuel, 0)

/-- The `for key, value in self._subtrie(k).items()` loop of `_prefixes`. -/
def prefixesFold [Add α] (m : α) (root : Level α) (fuel : Nat) (k : PyObj α) :
    Level α → GenRes α
  | [] => ⟨[], none⟩
  | (key, _) :: rest =>
    if key = m then prefixesFold m root fuel k rest
    else
      match pyConcat k key with
      | .error e => ⟨[], some e⟩
      | .ok k2 => GenRes.append (prefixesAux m root fuel k2) (prefixesFold m root fuel k rest)
termination_by lvl => (fuel, lvl.length + 1)

end

/-- The `for key in self.keys(): yield from self._prefixes(key)` loop of
`Trie.prefixes`: every top-level dict key (a bare element) is passed to
`_prefixes` as the accumulated prefix object. -/
def prefixesTop [Add α] (m : α) (root : Level α) (fuel : Nat) : Level α → GenRes α
  | [] => ⟨[], none⟩
  | (key, _) :: rest =>
    GenRes.append (prefixesAux m root fuel (.elem key)) (prefixesTop m root fuel rest)

/-- `Trie.prefixes()`. -/
def Trie.prefixes [Add α] (t : Trie α) (fuel : Nat) : GenRes α :=
  prefixesTop t.terminal_marker t.children fuel t.children

/-- `Trie.prefixes_from(key)`: `gen = self._prefixes(key); next(gen)` (the
user key, a real sequence, is the accumulated prefix object); the skipped
first item is dropped, everything else — including a pending exception — is
passed through to the caller. -/
def Trie.prefixes_from [Add α] (t : Trie α) (key : List α) (fuel : Nat) : GenRes α :=
  match prefixesAux t.terminal_marker t.children fuel (.seq key) with
  | ⟨[], e⟩ => ⟨[], e⟩
  | ⟨_ :: ys, e⟩ => ⟨ys, e⟩

/-- Writing an entry back at the position reached by a successful walk: the
functional image of the in-place mutation `level = iter_key(...); level[...]
= ...` when the whole path `key` already consists of branch levels. -/
def setPath : Level α → List α → Entry α → Level α
  | c, [], _ => c
  | c, [a], e => dictSet c a e
  | c, a :: b :: rest, e =>
    match dictGet c a with
    | some (.br sub) => dictSet c a (.br (setPath sub (b :: rest) e))
    | _ => c

theorem dictGet_dictSet_self (c : Level α) (a : α) (e : Entry α) :
    dictGet (dictSet c a e) a = some e := by
  induction c with
  | nil => simp [dictSet, dictGet]
  | cons p rest ih =>
    obtain ⟨k, e₀⟩ := p
    by_cases h : k = a <;> simp [dictSet, dictGet, h, ih]

theorem dictGet_dictSet_ne (c : Level α) {a b : α} (e : Entry α) (h : b ≠ a) :
    dictGet (dictSet c a e) b = dictGet c b := by
  induction c with
  | nil => simp [dictSet, dictGet, Ne.symm h]
  | cons p rest ih =>
    obtain ⟨k, e₀⟩ := p
    by_cases hk : k = a
    · subst hk
      simp [dictSet, dictGet, Ne.symm h]
    · simp [dictSet, dictGet, hk, ih]

theorem dictSet_self {c : Level α} {a : α} {e : Entry α} (h : dictGet c a = some e) :
    dictSet c a e = c := by
  induction c with
  | nil => simp [dictGet] at h
  | cons p rest ih =>
    obtain ⟨k, e₀⟩ := p
    by_cases hk : k = a
    · subst hk
      simp [dictGet] at h
      simp [dictSet, h]
    · simp [dictGet, hk] at h
      simp [dictSet, hk, ih h]

theorem dictGet_dictRemove_ne (c : Level α) {a b : α} (h : b ≠ a) :
    dictGet (dictRemove c a) b = dictGet c b := by
  induction c with
  | nil => simp [dictRemove]
  | cons p rest ih =>
    obtain ⟨k, e₀⟩ := p
    by_cases hk : k = a
    · subst hk
      simp [dictRemove, dictGet, Ne.symm h]
    · simp [dictRemove, dictGet, hk, ih]

theorem iter_key_append (c : Level α) (k₁ k₂ : List α) (h₁ : k₁ ≠ []) (h₂ : k₂ ≠ []) :
    iter_key c (k₁ ++ k₂) =
      match iter_key c k₁ with
      | .ok (.br lvl) => iter_key lvl k₂
      | .ok (.val _) => .error .typeError
      | .error e => .error e := by
  induction k₁ generalizing c with
  | nil => exact absurd rfl h₁
  | cons a k₁' ih =>
    cases k₁' with
    | nil =>
      cases k₂ with
      | nil => exact absurd rfl h₂
      | cons b k₂' =>
        cases hga : dictGet c a with
        | none => simp [iter_key, hga]
        | some e =>
          cases e with
          | br sub => simp [iter_key, hga]
          | val v => simp [iter_key, hga]
    | cons b k₁'' =>
      cases hga : dictGet c a with
      | none => simp [iter_key, hga]
      | some e =>
        cases e with
        | br sub =>
          have h := ih sub (by simp)
          simpa [iter_key, hga] using h
        | val v => simp [iter_key, hga]

theorem iter_key_keyError_elem {c : Level α} {k : List α} {o : PyObj α}
    (h : iter_key c k = .error (.keyError o)) : ∃ a, o = .elem a := by
  induction k generalizing c with
  | nil => simp [iter_key] at h
  | cons a k' ih =>
    cases k' with
    | nil =>
      cases hga : dictGet c a with
      | none =>
        simp [iter_key, hga] at h
        exact ⟨a, h.symm⟩
      | some e => simp [iter_key, hga] at h
    | cons b k'' =>
      cases hga : dictGet c a with
      | none =>
        simp [iter_key, hga] at h
        exact ⟨a, h.symm⟩
      | some e =>
        cases e with
        | br sub =>
          simp only [iter_key, hga] at h
          exact ih h
        | val v => simp [iter_key, hga] at h

theorem stored_nil_key (m : α) (c : Level α) : stored m c [] = none := rfl

theorem stored_nil_level (m : α) (q : List α) : stored m ([] : Level α) q = none := by
  cases q with
  | nil => rfl
  | cons y q' =>
    cases q' with
    | nil => simp [stored, iter_key, dictGet]
    | cons z q'' => simp [stored, iter_key, dictGet]

theorem stored_eq_of_get_head {c c' : Level α} {y : α} (m : α) (q : List α)
    (h : dictGet c y = dictGet c' y) : stored m c (y :: q) = stored m c' (y :: q) := by
  cases q with
  | nil => simp only [stored, iter_key, h]
  | cons z q' => simp only [stored, iter_key, h]

theorem stored_cons (m : α) (c : Level α) (a y : α) (q : List α) :
    stored m c (a :: y :: q) =
      match dictGet c a with
      | some (.br sub) => stored m sub (y :: q)
      | _ => none := by
  cases hga : dictGet c a with
  | none => simp [stored, iter_key, hga]
  | some e =>
    cases e with
    | br sub => simp [stored, iter_key, hga]
    | val v => simp [stored, iter_key, hga]

theorem stored_of_iter_key {m : α} {c : Level α} {k : List α} {lvl : Level α}
    (h : iter_key c k = .ok (.br lvl)) :
    stored m c k = match dictGet lvl m with | some (.val v) => some v | _ => none := by
  simp [stored, h]

theorem dd_top_get_ne {ρ : Type} (f : Entry α → Entry α × Except (PyErr α) ρ)
    (c : Level α) (a : α) (k : List α) {x : α} (hx : x ≠ a) :
    dictGet (dd_modifyR f c (a :: k)).1 x = dictGet c x := by
  cases k with
  | nil =>
    cases hga : dictGet c a with
    | none => simp [dd_modifyR, hga, dictGet_dictSet_ne c _ hx]
    | some e => simp [dd_modifyR, hga, dictGet_dictSet_ne c _ hx]
  | cons b k' =>
    cases hga : dictGet c a with
    | none => simp [dd_modifyR, hga, dictGet_dictSet_ne c _ hx]
    | some e =>
      cases e with
      | br sub => simp [dd_modifyR, hga, dictGet_dictSet_ne c _ hx]
      | val v => simp [dd_modifyR, hga]

theorem dd_found {ρ : Type} {f : Entry α → Entry α × Except (PyErr α) ρ}
    {c : Level α} {k : List α} {e : Entry α} (h : iter_key c k = .ok e) :
    dd_modifyR f c k = (setPath c k (f e).1, (f e).2) := by
  induction k generalizing c with
  | nil => simp [iter_key] at h
  | cons a k' ih =>
    cases k' with
    | nil =>
      cases hga : dictGet c a with
      | none => simp [iter_key, hga] at h
      | some e₀ =>
        simp [iter_key, hga] at h
        subst h
        simp [dd_modifyR, setPath, hga]
    | cons b k'' =>
      cases hga : dictGet c a with
      | none => simp [iter_key, hga] at h
      | some e₀ =>
        cases e₀ with
        | br sub =>
          simp only [iter_key, hga] at h
          simp [dd_modifyR, setPath, hga, ih h]
        | val v => simp [iter_key, hga] at h

theorem setPath_self {c : Level α} {k : List α} {e : Entry α}
    (h : iter_key c k = .ok e) : setPath c k e = c := by
  induction k generalizing c with
  | nil => simp [iter_key] at h
  | cons a k' ih =>
    cases k' with
    | nil =>
      cases hga : dictGet c a with
      | none => simp [iter_key, hga] at h
      | some e₀ =>
        simp [iter_key, hga] at h
        subst h
        simp [setPath, dictSet_self hga]
    | cons b k'' =>
      cases hga : dictGet c a with
      | none => simp [iter_key, hga] at h
      | some e₀ =>
        cases e₀ with
        | br sub =>
          simp only [iter_key, hga] at h
          simp [setPath, hga, ih h, dictSet_self hga]
        | val v => simp [iter_key, hga] at h

theorem dd_preserve {ρ : Type} {f : Entry α → Entry α × Except (PyErr α) ρ}
    {c : Level α} {k : List α} {e : Entry α} (h : iter_key c k = .ok e)
    (hid : (f e).1 = e) : dd_modifyR f c k = (c, (f e).2) := by
  rw [dd_found h, hid, setPath_self h]

theorem iter_key_setPath {c : Level α} {k : List α} {e : Entry α} (e' : Entry α)
    (h : iter_key c k = .ok e) : iter_key (setPath c k e') k = .ok e' := by
  induction k generalizing c with
  | nil => simp [iter_key] at h
  | cons a k' ih =>
    cases k' with
    | nil => simp [setPath, iter_key, dictGet_dictSet_self]
    | cons b k'' =>
      cases hga : dictGet c a with
      | none => simp [iter_key, hga] at h
      | some e₀ =>
        cases e₀ with
        | br sub =>
          simp only [iter_key, hga] at h
          simp [setPath, iter_key, hga, dictGet_dictSet_self, ih h]
        | val v => simp [iter_key, hga] at h

theorem dd_set_ok_stored {m : α} {v : PyVal} {c : Level α} {k : List α} {u : Unit}
    (h : (dd_modifyR (fSet m v) c k).2 = .ok u) :
    stored m (dd_modifyR (fSet m v) c k).1 k = some v := by
  induction k generalizing c with
  | nil => simp [dd_modifyR] at h
  | cons a k' ih =>
    cases k' with
    | nil =>
      cases hga : dictGet c a with
      | none =>
        simp [dd_modifyR, hga, fSet, stored, iter_key, dictGet_dictSet_self,
          dictGet_dictSet_self ([] : Level α) m (Entry.val v)]
      | some e =>
        cases e with
        | br lvl =>
          simp [dd_modifyR, hga, fSet, stored, iter_key, dictGet_dictSet_self,
            dictGet_dictSet_self lvl m (Entry.val v)]
        | val w => simp [dd_modifyR, hga, fSet] at h
    | cons b k'' =>
      cases hga : dictGet c a with
      | none =>
        simp only [dd_modifyR, hga] at h ⊢
        rw [stored_cons]
        simp [dictGet_dictSet_self]
        exact ih h
      | some e =>
        cases e with
        | br sub =>
          simp only [dd_modifyR, hga] at h ⊢
          rw [stored_cons]
          simp [dictGet_dictSet_self]
          exact ih h
        | val w => simp [dd_modifyR, hga] at h

theorem dd_set_nonempty_ok (m : α) (v : PyVal) {k : List α} (hk : k ≠ []) :
    (dd_modifyR (fSet m v) ([] : Level α) k).2 = .ok () := by
  induction k with
  | nil => exact absurd rfl hk
  | cons a k' ih =>
    cases k' with
    | nil => simp [dd_modifyR, dictGet, fSet]
    | cons b k'' =>
      simp only [dd_modifyR, dictGet]
      exact ih (by simp)

theorem dd_keyError_from_f {ρ : Type} {f : Entry α → Entry α × Except (PyErr α) ρ}
    {c : Level α} {k : List α} {o : PyObj α}
    (h : (dd_modifyR f c k).2 = .error (.keyError o)) :
    ∃ e, (f e).2 = .error (.keyError o) := by
  induction k generalizing c with
  | nil => simp [dd_modifyR] at h
  | cons a k' ih =>
    cases k' with
    | nil =>
      cases hga : dictGet c a with
      | none =>
        simp only [dd_modifyR, hga] at h
        exact ⟨.br [], h⟩
      | some e =>
        simp only [dd_modifyR, hga] at h
        exact ⟨e, h⟩
    | cons b k'' =>
      cases hga : dictGet c a with
      | none =>
        simp only [dd_modifyR, hga] at h
        exact ih h
      | some e =>
        cases e with
        | br sub =>
          simp only [dd_modifyR, hga] at h
          exact ih h
        | val w => simp [dd_modifyR, hga] at h

/-- The shape shared by the final actions of `__setitem__` and
`__delitem__`: they touch at most the terminal-marker entry of the level
they act on. -/
def TouchesOnlyMarker {ρ : Type} (m : α) (f : Entry α → Entry α × Except (PyErr α) ρ) : Prop :=
  ∀ e, (f e).1 = e ∨ ∃ lvl lvl', e = .br lvl ∧ (f e).1 = .br lvl' ∧
    ∀ x, x ≠ m → dictGet lvl' x = dictGet lvl x

theorem fSet_touches (m : α) (v : PyVal) : TouchesOnlyMarker m (fSet (α := α) m v) := by
  intro e
  cases e with
  | val w => exact Or.inl rfl
  | br lvl =>
    exact Or.inr ⟨lvl, dictSet lvl m (.val v), rfl, rfl,
      fun x hx => dictGet_dictSet_ne lvl (.val v) hx⟩

theorem fDel_touches (m : α) : TouchesOnlyMarker m (fDel (α := α) m) := by
  intro e
  cases e with
  | val w => exact Or.inl rfl
  | br lvl =>
    cases hg : dictGet lvl m with
    | none => simp [fDel, hg]
    | some e₀ =>
      exact Or.inr ⟨lvl, dictRemove lvl m, rfl, by simp [fDel, hg],
        fun x hx => dictGet_dictRemove_ne lvl hx⟩

/-- Frame property of the vivifying walk-and-mutate: an operation whose
final action touches only the terminal-marker entry of the level it reaches
leaves the payload stored at every other marker-free key unchanged — even
when the operation fails, and despite any intermediate levels it vivifies. -/
theorem stored_dd_frame {ρ : Type} {f : Entry α → Entry α × Except (PyErr α) ρ} {m : α}
    (hf : TouchesOnlyMarker m f) :
    ∀ (p : List α) (c : Level α) (q : List α), m ∉ p → m ∉ q → q ≠ p →
      stored m (dd_modifyR f c p).1 q = stored m c q := by
  intro p
  induction p with
  | nil =>
    intro c q _ _ _
    simp [dd_modifyR]
  | cons a p' ih =>
    intro c q hmp hmq hqp
    cases p' with
    | nil =>
      -- p = [a]
      have key : ∀ (e₀ : Entry α), dictGet c a = some e₀ ∨ (dictGet c a = none ∧ e₀ = .br []) →
          stored m (dictSet c a (f e₀).1) q = stored m c q := by
        intro e₀ he₀
        cases q with
        | nil => simp [stored_nil_key]
        | cons x q' =>
          by_cases hxa : x = a
          · subst hxa
            cases q' with
            | nil => exact absurd rfl hqp
            | cons y q'' =>
              have hym : y ≠ m := by
                intro hy
                exact hmq (by simp [hy])
              rcases hf e₀ with hid | ⟨lvl, lvl', helvl, hflvl, hoff⟩
              · rw [hid]
                rcases he₀ with he | ⟨he, he'⟩
                · rw [dictSet_self he]
                · subst he'
                  rw [stored_cons, stored_cons, dictGet_dictSet_self, he]
                  simp [stored_nil_level]
              · subst helvl
                rw [hflvl]
                rcases he₀ with he | ⟨he, he'⟩
                · rw [stored_cons, stored_cons, dictGet_dictSet_self, he]
                  simp only
                  exact stored_eq_of_get_head m q'' (hoff y (fun h => hym h))
                · cases he'
                  rw [stored_cons, stored_cons, dictGet_dictSet_self, he]
                  simp only
                  rw [stored_eq_of_get_head m q'' (hoff y (fun h => hym h))]
                  simp [stored_nil_level]
          · exact stored_eq_of_get_head m q' (dictGet_dictSet_ne c _ (fun h => hxa h))
      cases hga : dictGet c a with
      | none => simpa [dd_modifyR, hga] using key (.br []) (Or.inr ⟨hga, rfl⟩)
      | some e₀ => simpa [dd_modifyR, hga] using key e₀ (Or.inl hga)
    | cons b p'' =>
      -- p = a :: b :: p''
      have hmbp : m ∉ b :: p'' := fun h => hmp (List.mem_cons_of_mem _ h)
      have hmb : m ≠ b := by
        intro h
        exact hmbp (by simp [h])
      have frame_sub : ∀ (sub : Level α),
          stored m (dictSet c a (.br (dd_modifyR f sub (b :: p'')).1)) q
            = stored m (dictSet c a (.br sub)) q := by
        intro sub
        cases q with
        | nil => simp [stored_nil_key]
        | cons x q' =>
          by_cases hxa : x = a
          · subst hxa
            cases q' with
            | nil =>
              simp only [stored, iter_key, dictGet_dictSet_self]
              rw [dd_top_get_ne f sub b p'' hmb]
            | cons y q'' =>
              rw [stored_cons, stored_cons, dictGet_dictSet_self, dictGet_dictSet_self]
              simp only
              have hq'' : (y :: q'') ≠ (b :: p'') := by
                intro h
                exact hqp (by rw [h])
              exact ih sub (y :: q'') hmbp (fun h => hmq (List.mem_cons_of_mem _ h)) hq''
          · exact stored_eq_of_get_head m q' (by
              rw [dictGet_dictSet_ne c _ (fun h => hxa h),
                dictGet_dictSet_ne c _ (fun h => hxa h)])
      cases hga : dictGet c a with
      | none =>
        have h1 : stored m (dictSet c a (.br (dd_modifyR f ([] : Level α) (b :: p'')).1)) q
            = stored m (dictSet c a (.br ([] : Level α))) q := frame_sub []
        have h2 : stored m (dictSet c a (.br ([] : Level α))) q = stored m c q := by
          cases q with
          | nil => simp [stored_nil_key]
          | cons x q' =>
            by_cases hxa : x = a
            · subst hxa
              cases q' with
              | nil =>
                simp only [stored, iter_key, dictGet_dictSet_self, hga]
                simp [dictGet]
              | cons y q'' =>
                rw [stored_cons, stored_cons, dictGet_dictSet_self, hga]
                simp [stored_nil_level]
            · exact stored_eq_of_get_head m q' (dictGet_dictSet_ne c _ (fun h => hxa h))
        simp only [dd_modifyR, hga]
        exact h1.trans h2
      | some e₀ =>
        cases e₀ with
        | val w => simp [dd_modifyR, hga]
        | br sub =>
          have h1 := frame_sub sub
          have h2 : stored m (dictSet c a (.br sub)) q = stored m c q := by
            rw [dictSet_self hga]
          simp only [dd_modifyR, hga]
          exact h1.trans h2

theorem GenRes.append_err {g₁ g₂ : GenRes α} {x : PyErr α}
    (h : (GenRes.append g₁ g₂).err = some x) : g₁.err = some x ∨ g₂.err = some x := by
  obtain ⟨ys, e⟩ := g₁
  cases e with
  | none => exact Or.inr (by simpa [GenRes.append] using h)
  | some e₀ => exact Or.inl (by simpa [GenRes.append] using h)

theorem pyConcat_err [Add α] {k : PyObj α} {b : α} {e : PyErr α}
    (h : pyConcat k b = .error e) : e = .typeError := by
  cases k with
  | elem a => simp [pyConcat] at h
  | seq l => simpa [pyConcat] using h.symm

theorem iter_key_obj_keyError_elem {c : Level α} {k : PyObj α} {o : PyObj α}
    (h : iter_key_obj c k = .error (.keyError o)) : ∃ a, o = .elem a := by
  cases k with
  | elem a => simp [iter_key_obj] at h
  | seq l => exact iter_key_keyError_elem (by simpa [iter_key_obj] using h)

theorem prefixesFold_err_elem [Add α] {m : α} {root : Level α} {fuel : Nat}
    (haux : ∀ (k o : PyObj α),
      (prefixesAux m root fuel k).err = some (.keyError o) → ∃ a, o = .elem a) :
    ∀ (lvl : Level α) (k o : PyObj α),
      (prefixesFold m root fuel k lvl).err = some (.keyError o) → ∃ a, o = .elem a := by
  intro lvl
  induction lvl with
  | nil => intro k o h; simp [prefixesFold] at h
  | cons p rest ih =>
    obtain ⟨key, e₀⟩ := p
    intro k o h
    by_cases hkm : key = m
    · rw [prefixesFold, if_pos hkm] at h
      exact ih k o h
    · rw [prefixesFold, if_neg hkm] at h
      cases hpc : pyConcat k key with
      | error e =>
        rw [hpc] at h
        simp at h
        rw [pyConcat_err hpc] at h
        simp at h
      | ok k2 =>
        rw [hpc] at h
        rcases GenRes.append_err h with h₁ | h₂
        · exact haux k2 o h₁
        · exact ih k o h₂

theorem prefixesAux_err_elem [Add α] (m : α) (root : Level α) :
    ∀ (fuel : Nat) (k o : PyObj α),
      (prefixesAux m root fuel k).err = some (.keyError o) → ∃ a, o = .elem a := by
  intro fuel
  induction fuel with
  | zero => intro k o h; simp [prefixesAux] at h
  | succ n ih =>
    intro k o h
    rw [prefixesAux] at h
    cases hik : iter_key_obj root k with
    | error e =>
      rw [hik] at h
      simp at h
      exact iter_key_obj_keyError_elem (h ▸ hik)
    | ok e =>
      cases e with
      | val v =>
        rw [hik] at h
        simp at h
      | br lvl =>
        rw [hik] at h
        rcases GenRes.append_err h with h₁ | h₂
        · simp at h₁
        · exact prefixesFold_err_elem ih lvl k o h₂

theorem stored_elim {m : α} {c : Level α} {k : List α} {v : PyVal}
    (h : stored m c k = some v) :
    ∃ lvl, iter_key c k = .ok (.br lvl) ∧ dictGet lvl m = some (.val v) := by
  cases hik : iter_key c k with
  | error e => simp [stored, hik] at h
  | ok e =>
    cases e with
    | val w => simp [stored, hik] at h
    | br lvl =>
      refine ⟨lvl, rfl, ?_⟩
      cases hg : dictGet lvl m with
      | none => simp [stored, hik, hg] at h
      | some e₀ =>
        cases e₀ with
        | br sub => simp [stored, hik, hg] at h
        | val w =>
          simp [stored, hik, hg] at h
          rw [h]

theorem stored_intro {m : α} {c : Level α} {k : List α} {v : PyVal} {lvl : Level α}
    (hik : iter_key c k = .ok (.br lvl)) (hg : dictGet lvl m = some (.val v)) :
    stored m c k = some v := by
  simp [stored, hik, hg]

theorem get_of_stored {m : α} {c : Level α} {k : List α} {v : PyVal}
    (h : stored m c k = some v) (d : PyVal) : Trie.get ⟨m, c⟩ k d = .ok (.val v) := by
  obtain ⟨lvl, hik, hg⟩ := stored_elim h
  simp [Trie.get, hik, hg]

theorem getitem_of_stored {m : α} {c : Level α} {k : List α} {v : PyVal}
    (h : stored m c k = some v) : Trie.getitem ⟨m, c⟩ k = .ok (.val v) := by
  obtain ⟨lvl, hik, hg⟩ := stored_elim h
  simp [Trie.getitem, hik, hg]

theorem mget_of_stored {m : α} {c : Level α} {k : List α} {v : PyVal}
    (h : stored m c k = some v) (d : PyVal) :
    MutableTrie.get ⟨m, c⟩ k d = (c, .ok (.val v)) := by
  obtain ⟨lvl, hik, hg⟩ := stored_elim h
  rw [MutableTrie.get, dd_preserve hik rfl]
  simp [hg]

theorem mgetitem_of_stored {m : α} {c : Level α} {k : List α} {v : PyVal}
    (h : stored m c k = some v) (hv : v ≠ .pyNone) :
    MutableTrie.getitem ⟨m, c⟩ k = (c, .ok (.val v)) := by
  obtain ⟨lvl, hik, hg⟩ := stored_elim h
  rw [MutableTrie.getitem]
  cases v
  case pyNone => exact absurd rfl hv
  all_goals
    rw [dd_preserve hik (by simp [hg])]
    simp [hg]

theorem mgetitem_stored_none {m : α} {c : Level α} {k : List α}
    (h : stored m c k = some .pyNone) :
    MutableTrie.getitem ⟨m, c⟩ k = (c, .error (.keyError (.seq k))) := by
  obtain ⟨lvl, hik, hg⟩ := stored_elim h
  rw [MutableTrie.getitem, dd_preserve hik (by simp [hg])]
  simp [hg]

theorem mgetitem_no_marker {m : α} {c : Level α} {k : List α} {lvl : Level α}
    (hik : iter_key c k = .ok (.br lvl)) (hg : dictGet lvl m = none) :
    MutableTrie.getitem ⟨m, c⟩ k = (c, .error (.keyError (.seq k))) := by
  rw [MutableTrie.getitem, dd_preserve hik (by simp [hg])]
  simp [hg]

theorem contains_of_stored {m : α} {c : Level α} {k : List α} {v : PyVal}
    (h : stored m c k = some v) : Trie.contains ⟨m, c⟩ k = .ok v.truthy := by
  rw [Trie.contains, get_of_stored h]
  rfl

theorem mcontains_of_stored {m : α} {c : Level α} {k : List α} {v : PyVal}
    (h : stored m c k = some v) : MutableTrie.contains ⟨m, c⟩ k = (c, .ok v.truthy) := by
  rw [MutableTrie.contains, mget_of_stored h]
  rfl

theorem getitem_dd_of_stored {m : α} {c : Level α} {k : List α} {v : PyVal}
    (h : stored m c k = some v) : Trie.getitem_dd ⟨m, c⟩ k = (c, .ok (.val v)) := by
  obtain ⟨lvl, hik, hg⟩ := stored_elim h
  rw [Trie.getitem_dd, dd_preserve hik (by simp [hg])]
  simp [hg]

theorem mget_subtrie_of_found {m : α} {c : Level α} {k : List α} {lvl : Level α}
    (hik : iter_key c k = .ok (.br lvl)) :
    MutableTrie.get_subtrie ⟨m, c⟩ k = (c, .ok ⟨m, lvl⟩) := by
  rw [MutableTrie.get_subtrie, dd_preserve hik rfl]

theorem prefixes_from_err [Add α] (t : Trie α) (key : List α) (fuel : Nat) :
    (Trie.prefixes_from t key fuel).err
      = (prefixesAux t.terminal_marker t.children fuel (.seq key)).err := by
  rw [Trie.prefixes_from]
  rcases hg : prefixesAux t.terminal_marker t.children fuel (.seq key) with ⟨ys, e⟩
  cases ys with
  | nil => rfl
  | cons y ys' => rfl

/-- Claim C1: the claim (and the source docstring of `get`) promise that
`get(key, default)` returns `default` whenever the key is not stored and
never raises.  Evaluating the code at a failing input: on the finalized trie
`{(1,): "a"}` with terminal marker 0, `get((2,), "d")` does not return the
default — the walk's subscript of the missing element raises `KeyError(2)`
(only the path-resolved-but-no-marker case returns the default). -/
theorem claim_C1_get_raises :
    Trie.from_items 0 [([1], PyVal.pyStr "a")]
      = .ok (⟨0, [(1, .br [(0, .val (.pyStr "a"))])]⟩ : Trie ℕ)
    ∧ Trie.get (⟨0, [(1, .br [(0, .val (.pyStr "a"))])]⟩ : Trie ℕ) [2] (.pyStr "d")
        = .error (.keyError (.elem 2))
    ∧ Trie.get (⟨0, [(1, .br [(0, .val (.pyStr "a"))])]⟩ : Trie ℕ) [1, 3] (.pyStr "d")
        = .error (.keyError (.elem 3)) :=
  ⟨rfl, rfl, rfl⟩

/-- Claim C2: on the trie built from keys (1,2,3,4), (1,2,4), (2,2,5) with
terminal marker 0, `prefixes()` does not enumerate the eight tuple prefixes:
`prefixes` feeds each bare top-level element to `_prefixes`, which yields it
and then passes it to `iter_key`, where unpacking the non-iterable integer
raises `TypeError`.  The enumeration therefore yields the bare element `1`
and dies, for every positive recursion budget. -/
theorem claim_C2_prefixes_crash (n : Nat) :
    (Trie.from_items 0 [([1, 2, 3, 4], PyVal.pyStr "a"), ([1, 2, 4], PyVal.pyStr "b"),
        ([2, 2, 5], PyVal.pyStr "c")]).map (fun t => Trie.prefixes t (n + 1))
      = .ok ⟨[.elem 1], some .typeError⟩ := by
  rw [show Trie.from_items 0 [([1, 2, 3, 4], PyVal.pyStr "a"), ([1, 2, 4], PyVal.pyStr "b"),
        ([2, 2, 5], PyVal.pyStr "c")] = .ok ⟨0, [(1, Entry.br [(2, Entry.br
            [(3, Entry.br [(4, Entry.br [(0, Entry.val (.pyStr "a"))])]),
             (4, Entry.br [(0, Entry.val (.pyStr "b"))])])]),
          (2, Entry.br [(2, Entry.br [(5, Entry.br [(0, Entry.val (.pyStr "c"))])])])]⟩ from rfl]
  rw [Except.map, Trie.prefixes, prefixesTop, prefixesAux]
  rfl

/-- Claim C3: the claim (and the spec) require reads on the mutable variant
to be non-creating.  Evaluating the code: on the mutable trie `{(1,): "a"}`,
`get((5,), None)` returns the default but appends a fresh empty branch under
5 to the root level, and `contains((7,))` likewise vivifies a branch under
7 — failed reads mutate the structure. -/
theorem claim_C3_read_vivifies :
    MutableTrie.from_items 0 [([1], PyVal.pyStr "a")]
      = .ok (⟨0, [(1, .br [(0, .val (.pyStr "a"))])]⟩ : Trie ℕ)
    ∧ MutableTrie.get (⟨0, [(1, .br [(0, .val (.pyStr "a"))])]⟩ : Trie ℕ) [5] .pyNone
        = ([(1, .br [(0, .val (.pyStr "a"))]), (5, .br [])], .ok (.val .pyNone))
    ∧ MutableTrie.contains (⟨0, [(1, .br [(0, .val (.pyStr "a"))])]⟩ : Trie ℕ) [7]
        = ([(1, .br [(0, .val (.pyStr "a"))]), (7, .br [])], .ok false)
    ∧ ([(1, .br [(0, .val (.pyStr "a"))]), (5, .br [])] : Level ℕ)
        ≠ [(1, .br [(0, .val (.pyStr "a"))])] := by
  refine ⟨rfl, rfl, rfl, fun h => ?_⟩
  simpa using congrArg List.length h

/-- Claim C9: `TrieSet.from_keys(terminal_marker, keys)` never builds a
trie: its body calls `cls.from_items` with a single argument, so every call
raises `TypeError` for a missing positional argument.  The intended call
`from_items(terminal_marker, [(k, True) ...])` would have satisfied the
claim, as the second conjunct shows. -/
theorem claim_C9_from_keys_raises :
    (∀ (m : ℕ) (keys : List (List ℕ)), TrieSet.from_keys m keys = .error .typeError)
    ∧ (Trie.from_items 0 [([1, 2], PyVal.pyBool true)]).map
        (fun t => Trie.get t [1, 2] .pyNone)
      = .ok (.ok (.val (.pyBool true))) :=
  ⟨fun _ _ => rfl, rfl⟩

/-- Claim C4 counterexample: on the trie `{(1,): "a"}` with terminal marker
0, the unresolvable key (5,6) makes `get_subtrie` raise `KeyError` carrying
the single missing element 5 — not the originally supplied full key (5,6)
as the claim asserts. -/
theorem claim_C4_counterexample :
    Trie.get_subtrie (⟨0, [(1, Entry.br [(0, Entry.val (.pyStr "a"))])]⟩ : Trie ℕ) [5, 6]
      = .error (.keyError (.elem 5))
    ∧ (PyObj.elem (5 : ℕ)) ≠ .seq [5, 6] :=
  ⟨rfl, by simp⟩

/-- Claim C4 (amended): when a key cannot be fully resolved, only strict
lookup (`__getitem__`) re-raises `KeyError` carrying the originally supplied
full key; `get_subtrie` and `prefixes_from` propagate the walk's `KeyError`
carrying the single missing element (never the full key), and the mutable
`delete` raises `KeyError` carrying the terminal marker when the level it
reaches has no stored entry. -/
theorem claim_C4_amended {α : Type} [DecidableEq α] [Add α]
    (t : Trie α) (k : List α) (o : PyObj α) :
    (Trie.getitem t k = .error (.keyError o) → o = .seq k)
    ∧ (Trie.get_subtrie t k = .error (.keyError o) → ∃ a, o = .elem a)
    ∧ (∀ fuel, (Trie.prefixes_from t k fuel).err = some (.keyError o) → ∃ a, o = .elem a)
    ∧ ((MutableTrie.delitem t k).2 = .error (.keyError o) → o = .elem t.terminal_marker) := by
  refine ⟨?_, ?_, ?_, ?_⟩
  · intro h
    cases hik : iter_key t.children k with
    | error e =>
      cases e with
      | keyError o' =>
        simp [Trie.getitem, hik] at h
        exact h.symm
      | typeError => simp [Trie.getitem, hik] at h
      | valueError => simp [Trie.getitem, hik] at h
      | attributeError => simp [Trie.getitem, hik] at h
      | recursionError => simp [Trie.getitem, hik] at h
    | ok e =>
      cases e with
      | val v => simp [Trie.getitem, hik] at h
      | br lvl =>
        cases hg : dictGet lvl t.terminal_marker with
        | some e₀ => simp [Trie.getitem, hik, hg] at h
        | none =>
          simp [Trie.getitem, hik, hg] at h
          exact h.symm
  · intro h
    cases hik : iter_key t.children k with
    | error e =>
      have he : e = .keyError o := by
        simpa [Trie.get_subtrie, hik] using h
      exact iter_key_keyError_elem (he ▸ hik)
    | ok e =>
      cases e with
      | val v => simp [Trie.get_subtrie, hik] at h
      | br lvl => simp [Trie.get_subtrie, hik] at h
  · intro fuel h
    rw [prefixes_from_err] at h
    exact prefixesAux_err_elem t.terminal_marker t.children fuel (.seq k) o h
  · intro h
    rw [MutableTrie.delitem] at h
    obtain ⟨e, he⟩ := dd_keyError_from_f h
    cases e with
    | val w => simp [fDel] at he
    | br lvl =>
      cases hg : dictGet lvl t.terminal_marker with
      | some e₀ => simp [fDel, hg] at he
      | none =>
        simp [fDel, hg] at he
        exact he.symm

/-- Claim C4 witness: the amended theorem applied at the concrete failing input of
the counterexample. -/
theorem claim_C4_witness :
    Trie.get_subtrie (⟨0, [(1, Entry.br [(0, Entry.val (.pyStr "a"))])]⟩ : Trie ℕ) [5, 6]
      = .error (.keyError (.elem 5))
    ∧ ∃ a, (PyObj.elem (5 : ℕ)) = .elem a :=
  ⟨rfl, (claim_C4_amended (⟨0, [(1, Entry.br [(0, Entry.val (.pyStr "a"))])]⟩ : Trie ℕ)
    [5, 6] (.elem 5)).2.1 rfl⟩

/-- Claim C5 counterexample: inserting key (1,) with value `None` through
the mutable variant's construction and then performing strict lookup does
not return the stored value — `MutableTrie.__getitem__` conflates a stored
`None` with absence and raises `KeyError((1,))`. -/
theorem claim_C5_counterexample :
    MutableTrie.from_items 0 [([1], PyVal.pyNone)]
      = .ok (⟨0, [(1, Entry.br [(0, Entry.val .pyNone)])]⟩ : Trie ℕ)
    ∧ MutableTrie.getitem (⟨0, [(1, Entry.br [(0, Entry.val .pyNone)])]⟩ : Trie ℕ) [1]
        = ([(1, Entry.br [(0, Entry.val .pyNone)])], .error (.keyError (.seq [1]))) :=
  ⟨rfl, rfl⟩

/-- Claim C5 (amended): for every non-empty key `k` and value `v`, inserting
`(k, v)` at construction and reading back with `get` or strict lookup
returns `v`; inserting the same key twice retains only the latest value; and
after a successful `set` on a mutable trie, `get` returns `v` and the
mutable strict lookup returns `v` unless `v` is `None` — a stored `None` is
reported as absent (`KeyError` carrying the full key) by the mutable strict
lookup. -/
theorem claim_C5_amended {α : Type} [DecidableEq α] (m : α) (k : List α)
    (v v₀ d : PyVal) (hk : k ≠ []) :
    (∃ t, Trie.from_items m [(k, v)] = .ok t ∧ Trie.get t k d = .ok (.val v)
      ∧ Trie.getitem t k = .ok (.val v))
    ∧ (∃ t, Trie.from_items m [(k, v₀), (k, v)] = .ok t ∧ Trie.get t k d = .ok (.val v))
    ∧ (∀ (c : Level α), (MutableTrie.setitem ⟨m, c⟩ k v).2 = .ok () →
        MutableTrie.get ⟨m, (MutableTrie.setitem ⟨m, c⟩ k v).1⟩ k d
          = ((MutableTrie.setitem ⟨m, c⟩ k v).1, .ok (.val v))
        ∧ (v ≠ .pyNone → MutableTrie.getitem ⟨m, (MutableTrie.setitem ⟨m, c⟩ k v).1⟩ k
            = ((MutableTrie.setitem ⟨m, c⟩ k v).1, .ok (.val v)))
        ∧ (v = .pyNone → MutableTrie.getitem ⟨m, (MutableTrie.setitem ⟨m, c⟩ k v).1⟩ k
            = ((MutableTrie.setitem ⟨m, c⟩ k v).1, .error (.keyError (.seq k))))) := by
  refine ⟨?_, ?_, ?_⟩
  · rcases hdd : dd_modifyR (fSet m v) ([] : Level α) k with ⟨c₁, r₁⟩
    have hok : r₁ = .ok () := by
      have h2 := dd_set_nonempty_ok m v hk
      rw [hdd] at h2
      exact h2
    subst hok
    have hst : stored m c₁ k = some v := by
      have h3 := @dd_set_ok_stored α _ m v ([] : Level α) k () (by rw [hdd])
      rw [hdd] at h3
      exact h3
    refine ⟨⟨m, c₁⟩, ?_, get_of_stored hst d, getitem_of_stored hst⟩
    simp [Trie.from_items, build_children, hdd, Trie.finalize]
  · rcases hdd : dd_modifyR (fSet m v₀) ([] : Level α) k with ⟨c₁, r₁⟩
    have hok : r₁ = .ok () := by
      have h2 := dd_set_nonempty_ok m v₀ hk
      rw [hdd] at h2
      exact h2
    subst hok
    have hst : stored m c₁ k = some v₀ := by
      have h3 := @dd_set_ok_stored α _ m v₀ ([] : Level α) k () (by rw [hdd])
      rw [hdd] at h3
      exact h3
    obtain ⟨lvl, hik, hg⟩ := stored_elim hst
    have hdd2 : dd_modifyR (fSet m v) c₁ k
        = (setPath c₁ k (.br (dictSet lvl m (.val v))), .ok ()) := dd_found hik
    have hst2 : stored m (setPath c₁ k (.br (dictSet lvl m (.val v)))) k = some v := by
      have h4 := @dd_set_ok_stored α _ m v c₁ k () (by rw [hdd2])
      rw [hdd2] at h4
      exact h4
    refine ⟨⟨m, setPath c₁ k (.br (dictSet lvl m (.val v)))⟩, ?_, get_of_stored hst2 d⟩
    simp [Trie.from_items, build_children, hdd, hdd2, Trie.finalize]
  · intro c hset
    have hst : stored m (MutableTrie.setitem ⟨m, c⟩ k v).1 k = some v := by
      rw [MutableTrie.setitem] at hset ⊢
      exact dd_set_ok_stored hset
    exact ⟨mget_of_stored hst d, fun hv => mgetitem_of_stored hst hv,
      fun hv => mgetitem_stored_none (hv ▸ hst)⟩

/-- Claim C5 witness: the amended round-trip instantiated at marker 0, key
(1,), values 7 then 3. -/
theorem claim_C5_witness :
    ([1] : List ℕ) ≠ []
    ∧ (∃ t, Trie.from_items 0 [([1], PyVal.pyInt 7)] = .ok t
        ∧ Trie.get t [1] .pyNone = .ok (.val (.pyInt 7))
        ∧ Trie.getitem t [1] = .ok (.val (.pyInt 7)))
    ∧ (∃ t, Trie.from_items 0 [([1], PyVal.pyInt 3), ([1], PyVal.pyInt 7)] = .ok t
        ∧ Trie.get t [1] .pyNone = .ok (.val (.pyInt 7))) :=
  ⟨by simp,
    (claim_C5_amended 0 [1] (.pyInt 7) (.pyInt 3) .pyNone (by simp)).1,
    (claim_C5_amended 0 [1] (.pyInt 7) (.pyInt 3) .pyNone (by simp)).2.1⟩

/-- Claim C6: a key mapping to a falsy stored value is reported absent by
`contains` (both variants) while `get` with default `None` still returns the
stored value; and `contains` is literally the truthiness of
`get(key, False)`. -/
theorem claim_C6_contains_falsy {α : Type} [DecidableEq α] (m : α) (c : Level α)
    (k : List α) (v : PyVal) (hst : stored m c k = some v) (hf : v.truthy = false) :
    Trie.contains ⟨m, c⟩ k = .ok false
    ∧ Trie.get ⟨m, c⟩ k .pyNone = .ok (.val v)
    ∧ MutableTrie.contains ⟨m, c⟩ k = (c, .ok false)
    ∧ MutableTrie.get ⟨m, c⟩ k .pyNone = (c, .ok (.val v))
    ∧ (∀ (key : List α), Trie.contains ⟨m, c⟩ key
        = (Trie.get ⟨m, c⟩ key (.pyBool false)).map Entry.truthy) := by
  refine ⟨?_, get_of_stored hst .pyNone, ?_, mget_of_stored hst .pyNone, ?_⟩
  · rw [contains_of_stored hst, hf]
  · rw [mcontains_of_stored hst, hf]
  · intro key
    rw [Trie.contains]
    cases hg : Trie.get ⟨m, c⟩ key (.pyBool false) with
    | ok e => rfl
    | error e => rfl

/-- Claim C6 witness: the trie `{(9,): 0}` with terminal marker 0 reports
`contains((9,))` false while `get((9,), None)` returns the stored 0. -/
theorem claim_C6_witness :
    stored 0 ([(9, Entry.br [(0, Entry.val (.pyInt 0))])] : Level ℕ) [9] = some (.pyInt 0)
    ∧ PyVal.truthy (.pyInt 0) = false
    ∧ Trie.contains (⟨0, [(9, Entry.br [(0, Entry.val (.pyInt 0))])]⟩ : Trie ℕ) [9] = .ok false
    ∧ Trie.get (⟨0, [(9, Entry.br [(0, Entry.val (.pyInt 0))])]⟩ : Trie ℕ) [9] .pyNone
        = .ok (.val (.pyInt 0)) :=
  ⟨rfl, rfl,
    (claim_C6_contains_falsy 0 [(9, Entry.br [(0, Entry.val (.pyInt 0))])] [9]
      (.pyInt 0) (by rfl) rfl).1,
    (claim_C6_contains_falsy 0 [(9, Entry.br [(0, Entry.val (.pyInt 0))])] [9]
      (.pyInt 0) (by rfl) rfl).2.1⟩

/-- Claim C7: for a stored key split as `k₁ ++ k₂`, looking `k₂` up in the
view returned by `get_subtrie(k₁)` yields the same value as looking
`k₁ ++ k₂` up in the whole trie, the view's terminal marker is the
parent's, and the same holds for the mutable variant (whose view aliases
`defaultdict` levels and leaves the structure unchanged on this hit). -/
theorem claim_C7_subtrie {α : Type} [DecidableEq α] (m : α) (c : Level α)
    (k₁ k₂ : List α) (v d : PyVal) (h₁ : k₁ ≠ []) (h₂ : k₂ ≠ [])
    (hst : stored m c (k₁ ++ k₂) = some v) :
    ∃ lvl, Trie.get_subtrie ⟨m, c⟩ k₁ = .ok ⟨m, lvl⟩
      ∧ Trie.getitem ⟨m, lvl⟩ k₂ = .ok (.val v)
      ∧ Trie.get ⟨m, c⟩ (k₁ ++ k₂) d = .ok (.val v)
      ∧ MutableTrie.get_subtrie ⟨m, c⟩ k₁ = (c, .ok ⟨m, lvl⟩)
      ∧ Trie.getitem_dd ⟨m, lvl⟩ k₂ = (lvl, .ok (.val v)) := by
  obtain ⟨lvl₂, hik₂, hg⟩ := stored_elim hst
  cases hk1 : iter_key c k₁ with
  | error e =>
    have happ := iter_key_append c k₁ k₂ h₁ h₂
    rw [hik₂, hk1] at happ
    simp at happ
  | ok e =>
    cases e with
    | val w =>
      have happ := iter_key_append c k₁ k₂ h₁ h₂
      rw [hik₂, hk1] at happ
      simp at happ
    | br lvl =>
      have hlvl : iter_key lvl k₂ = .ok (.br lvl₂) := by
        have happ := iter_key_append c k₁ k₂ h₁ h₂
        rw [hik₂, hk1] at happ
        exact happ.symm
      have hst₂ : stored m lvl k₂ = some v := stored_intro hlvl hg
      refine ⟨lvl, ?_, getitem_of_stored hst₂, get_of_stored hst d,
        mget_subtrie_of_found hk1, getitem_dd_of_stored hst₂⟩
      simp [Trie.get_subtrie, hk1]

/-- Claim C7 witness: the split (1,)(2,) of the stored key (1,2). -/
theorem claim_C7_witness :
    stored 0 ([(1, Entry.br [(2, Entry.br [(0, Entry.val (.pyStr "x"))])])] : Level ℕ)
        ([1] ++ [2]) = some (.pyStr "x")
    ∧ ∃ lvl, Trie.get_subtrie
          (⟨0, [(1, Entry.br [(2, Entry.br [(0, Entry.val (.pyStr "x"))])])]⟩ : Trie ℕ) [1]
          = .ok ⟨0, lvl⟩
        ∧ Trie.getitem ⟨0, lvl⟩ [2] = .ok (.val (.pyStr "x"))
        ∧ Trie.get (⟨0, [(1, Entry.br [(2, Entry.br [(0, Entry.val (.pyStr "x"))])])]⟩ : Trie ℕ)
            ([1] ++ [2]) .pyNone = .ok (.val (.pyStr "x"))
        ∧ MutableTrie.get_subtrie
            (⟨0, [(1, Entry.br [(2, Entry.br [(0, Entry.val (.pyStr "x"))])])]⟩ : Trie ℕ) [1]
          = ([(1, Entry.br [(2, Entry.br [(0, Entry.val (.pyStr "x"))])])], .ok ⟨0, lvl⟩)
        ∧ Trie.getitem_dd ⟨0, lvl⟩ [2] = (lvl, .ok (.val (.pyStr "x"))) :=
  ⟨rfl, claim_C7_subtrie 0 [(1, Entry.br [(2, Entry.br [(0, Entry.val (.pyStr "x"))])])]
    [1] [2] (.pyStr "x") .pyNone (by simp) (by simp) (by rfl)⟩

/-- Claim C8 counterexample: a mutable trie storing `None` at key (1,) has
the entry present, yet the mutable strict lookup raises `KeyError((1,))`
instead of returning the stored (falsy) value — refuting the claim for the
value `None`. -/
theorem claim_C8_counterexample :
    stored 0 ([(1, Entry.br [(0, Entry.val .pyNone)])] : Level ℕ) [1] = some .pyNone
    ∧ MutableTrie.getitem (⟨0, [(1, Entry.br [(0, Entry.val .pyNone)])]⟩ : Trie ℕ) [1]
        = ([(1, Entry.br [(0, Entry.val .pyNone)])], .error (.keyError (.seq [1]))) :=
  ⟨by rfl, by rfl⟩

/-- Claim C8 (amended): the mutable strict lookup returns a present value
even when it is falsy — for every stored value other than `None` (0, False,
the empty string included); a stored `None`, however, is conflated with
absence and raises `KeyError` carrying the full key, exactly as a resolved
level with no terminal-marker entry does. -/
theorem claim_C8_amended {α : Type} [DecidableEq α] (m : α) (c : Level α)
    (k : List α) (v : PyVal) :
    (stored m c k = some v → v ≠ .pyNone →
      MutableTrie.getitem ⟨m, c⟩ k = (c, .ok (.val v)))
    ∧ (stored m c k = some .pyNone →
      MutableTrie.getitem ⟨m, c⟩ k = (c, .error (.keyError (.seq k))))
    ∧ (∀ lvl, iter_key c k = .ok (.br lvl) → dictGet lvl m = none →
      MutableTrie.getitem ⟨m, c⟩ k = (c, .error (.keyError (.seq k)))) :=
  ⟨fun h hv => mgetitem_of_stored h hv,
    fun h => mgetitem_stored_none h,
    fun _ hik hg => mgetitem_no_marker hik hg⟩

/-- Claim C8 witness: the falsy-but-not-None stored value 0 is returned by
the mutable strict lookup. -/
theorem claim_C8_witness :
    stored 0 ([(9, Entry.br [(0, Entry.val (.pyInt 0))])] : Level ℕ) [9] = some (.pyInt 0)
    ∧ MutableTrie.getitem (⟨0, [(9, Entry.br [(0, Entry.val (.pyInt 0))])]⟩ : Trie ℕ) [9]
        = ([(9, Entry.br [(0, Entry.val (.pyInt 0))])], .ok (.val (.pyInt 0))) :=
  ⟨by rfl,
    (claim_C8_amended 0 [(9, Entry.br [(0, Entry.val (.pyInt 0))])] [9] (.pyInt 0)).1
      (by rfl) (by simp)⟩

/-- Claim C10: when a stored key `k` is a proper prefix of another stored
key `k ++ h :: ext` (marker-free keys), the level reached by `k` holds both
the terminal-marker entry with `k`'s value and the branch entry under `h`
continuing toward the longer key; and setting (storing or overwriting) or
deleting either key through the mutable variant leaves the value stored at
the other unchanged. -/
theorem claim_C10_prefix_pair {α : Type} [DecidableEq α] (m : α) (c : Level α)
    (k : List α) (h : α) (ext : List α) (v₁ v₂ : PyVal)
    (hk : k ≠ []) (hmk : m ∉ k) (hmh : m ∉ h :: ext)
    (h₁ : stored m c k = some v₁) (h₂ : stored m c (k ++ h :: ext) = some v₂) :
    (∃ lvl sub, iter_key c k = .ok (.br lvl) ∧ dictGet lvl m = some (.val v₁)
      ∧ dictGet lvl h = some (.br sub))
    ∧ (∀ u, stored m (MutableTrie.setitem ⟨m, c⟩ k u).1 (k ++ h :: ext) = some v₂)
    ∧ (∀ u, stored m (MutableTrie.setitem ⟨m, c⟩ (k ++ h :: ext) u).1 k = some v₁)
    ∧ stored m (MutableTrie.delitem ⟨m, c⟩ k).1 (k ++ h :: ext) = some v₂
    ∧ stored m (MutableTrie.delitem ⟨m, c⟩ (k ++ h :: ext)).1 k = some v₁ := by
  have hne : (k ++ h :: ext) ≠ k := by
    intro he
    have hl := congrArg List.length he
    simp at hl
  have hne' : k ≠ (k ++ h :: ext) := fun he => hne he.symm
  have hmq : m ∉ k ++ h :: ext := by
    intro hm
    rcases List.mem_append.mp hm with h' | h'
    · exact hmk h'
    · exact hmh h'
  obtain ⟨lvl, hik, hg⟩ := stored_elim h₁
  obtain ⟨lvl₂, hik₂, hg₂⟩ := stored_elim h₂
  have hlvl : iter_key lvl (h :: ext) = .ok (.br lvl₂) := by
    have happ := iter_key_append c k (h :: ext) hk (by simp)
    rw [hik₂, hik] at happ
    exact happ.symm
  refine ⟨?_, fun u => ?_, fun u => ?_, ?_, ?_⟩
  · refine ⟨lvl, ?_⟩
    cases ext with
    | nil =>
      cases hgh : dictGet lvl h with
      | none => simp [iter_key, hgh] at hlvl
      | some e₀ =>
        simp [iter_key, hgh] at hlvl
        exact ⟨lvl₂, hik, hg, congrArg some hlvl⟩
    | cons y ext' =>
      cases hgh : dictGet lvl h with
      | none => simp [iter_key, hgh] at hlvl
      | some e₀ =>
        cases e₀ with
        | val w => simp [iter_key, hgh] at hlvl
        | br sub => exact ⟨sub, hik, hg, rfl⟩
  · exact (stored_dd_frame (fSet_touches m u) k c (k ++ h :: ext) hmk hmq hne).trans h₂
  · exact (stored_dd_frame (fSet_touches m u) (k ++ h :: ext) c k hmq hmk hne').trans h₁
  · exact (stored_dd_frame (fDel_touches m) k c (k ++ h :: ext) hmk hmq hne).trans h₂
  · exact (stored_dd_frame (fDel_touches m) (k ++ h :: ext) c k hmq hmk hne').trans h₁

/-- Claim C10 witness: keys (1,) and (1,2) stored together; setting (1,)
keeps (1,2)'s value, deleting (1,2) keeps (1,)'s value. -/
theorem claim_C10_witness :
    stored 0 ([(1, Entry.br [(0, Entry.val (.pyStr "p")),
        (2, Entry.br [(0, Entry.val (.pyStr "q"))])])] : Level ℕ) [1] = some (.pyStr "p")
    ∧ stored 0 ([(1, Entry.br [(0, Entry.val (.pyStr "p")),
        (2, Entry.br [(0, Entry.val (.pyStr "q"))])])] : Level ℕ) ([1] ++ 2 :: [])
        = some (.pyStr "q")
    ∧ (∀ u, stored 0 (MutableTrie.setitem
        (⟨0, [(1, Entry.br [(0, Entry.val (.pyStr "p")),
          (2, Entry.br [(0, Entry.val (.pyStr "q"))])])]⟩ : Trie ℕ) [1] u).1
        ([1] ++ 2 :: []) = some (.pyStr "q"))
    ∧ stored 0 (MutableTrie.delitem
        (⟨0, [(1, Entry.br [(0, Entry.val (.pyStr "p")),
          (2, Entry.br [(0, Entry.val (.pyStr "q"))])])]⟩ : Trie ℕ) ([1] ++ 2 :: [])).1 [1]
        = some (.pyStr "p") :=
  ⟨by rfl, by rfl,
    (claim_C10_prefix_pair 0 [(1, Entry.br [(0, Entry.val (.pyStr "p")),
        (2, Entry.br [(0, Entry.val (.pyStr "q"))])])] [1] 2 [] (.pyStr "p") (.pyStr "q")
      (by simp) (by simp) (by simp) (by rfl) (by rfl)).2.1,
    (claim_C10_prefix_pair 0 [(1, Entry.br [(0, Entry.val (.pyStr "p")),
        (2, Entry.br [(0, Entry.val (.pyStr "q"))])])] [1] 2 [] (.pyStr "p") (.pyStr "q")
      (by simp) (by simp) (by simp) (by rfl) (by rfl)).2.2.2.2⟩
